import Mathlib

/-!
Verification of the archive image-normalization engine of
`media-organizer-rust` against its design document.

The definitions below are a shallow embedding of `src/archive_cleaner.rs`
(together with `extract_file_info` and `IMAGE_SIZE` from
`src/file_handler.rs`).  `u32` arithmetic is modelled as `Nat` with an
explicit reduction modulo `2 ^ 32` wherever the Rust code multiplies or
adds machine integers.  File-system activity (temporary-file creation,
container entries, renames) is modelled as an explicit effect trace, and
per-worker activity in the paged path as an explicit step trace, so that
ordering and frame properties can be stated.  Fallible collaborators
(image decoding, the webp encoder, mutex acquisition, entry reads) are
parameters of the embedding.
-/

namespace MediaOrganizer

/-- Modulus of `u32` arithmetic. -/
def u32Mod : Nat := 2 ^ 32

/-- Reduce a `Nat` the way wrapping `u32` arithmetic does. -/
def wrap (n : Nat) : Nat := n % u32Mod

/-- `IMAGE_SIZE` from `file_handler.rs`: the `(width, height)` threshold. -/
def IMAGE_SIZE : Nat × Nat := (1024, 1024)

/-- `ArchiveType` from `archive_cleaner.rs`: `Manhwa` is the strip layout,
`Manga` the paged layout. -/
inductive ArchiveType where
  | Manhwa
  | Manga
deriving DecidableEq, Repr

/-- `ImageInfo` from `archive_cleaner.rs`: a width/height pair used as the
size threshold held by the cleaner. -/
structure ImageInfo where
  width : Nat
  height : Nat
deriving DecidableEq, Repr

/-- A decoded `DynamicImage`, abstracted to its pixel dimensions; the
claims under verification only depend on dimensions, names and ordering,
never on pixel contents. -/
structure DynamicImage where
  width : Nat
  height : Nat
deriving DecidableEq, Repr

/-- A filesystem path, split as the Rust code observes it: a parent
directory and a file name. -/
structure ArchivePath where
  dir : String
  fileName : String
deriving DecidableEq, Repr

/-- `rsplit_once('.')` on a character sequence: split at the last dot,
returning the parts before and after it, or `none` when no dot occurs. -/
def rsplitOnceDot : List Char → Option (List Char × List Char)
  | [] => none
  | c :: rest =>
    match rsplitOnceDot rest with
    | some (before, after) => some (c :: before, after)
    | none => if c = '.' then some ([], rest) else none

/-- The stem computed by `filename.rsplit_once('.')` in
`extract_file_info`: everything before the last dot, or the whole name
when there is no dot. -/
def stemOf (filename : String) : String :=
  match rsplitOnceDot filename.data with
  | some (before, _) => String.mk before
  | none => filename

/-- `extract_file_info` from `file_handler.rs`: returns the stem of the
file name and the parent directory.  (The Rust error branches fire only
for paths with no file name or no parent, which the path model cannot
express.) -/
def extract_file_info (p : ArchivePath) : String × String :=
  (stemOf p.fileName, p.dir)

/-- `ArchiveCleaner::image_meets_criteria`:
`(h >= 3*w && h > min.height) || (h < 3*w && w > min.width && h > min.height)`. -/
def image_meets_criteria (minSize : ImageInfo) (w h : Nat) : Bool :=
  (decide (wrap (3 * w) ≤ h) && decide (minSize.height < h))
    || (decide (h < wrap (3 * w)) && decide (minSize.width < w)
          && decide (minSize.height < h))

/-- The per-image classification performed inside `should_write_archive`:
`Manhwa` when `h >= 3 * w`, else `Manga`. -/
def classifyImage (img : DynamicImage) : ArchiveType :=
  if wrap (3 * img.width) ≤ img.height then ArchiveType.Manhwa
  else ArchiveType.Manga

/-- The loop body of `ArchiveCleaner::should_write_archive` over the
already-truncated image list: mutate `archive_type` per image, stop with
`true` at the first image meeting the criterion. -/
def should_write_archive_go (minSize : ImageInfo) (ty : ArchiveType) :
    List DynamicImage → Bool × ArchiveType
  | [] => (false, ty)
  | img :: rest =>
    let ty2 := classifyImage img
    if image_meets_criteria minSize img.width img.height then (true, ty2)
    else should_write_archive_go minSize ty2 rest

/-- `ArchiveCleaner::should_write_archive`: scan
`images.iter().take(max_images_to_check)`, returning the rewrite decision
and the final value of the mutated `archive_type` field. -/
def should_write_archive (minSize : ImageInfo) (ty : ArchiveType)
    (images : List DynamicImage) (max_images_to_check : Nat) :
    Bool × ArchiveType :=
  should_write_archive_go minSize ty (images.take max_images_to_check)

/-- One segment placed onto the strip canvas by `combine_images`:
`resize_exact(max_width, img.height())` copied at `(0, y_offset)`. -/
structure Placement where
  width : Nat
  height : Nat
  yOffset : Nat
deriving DecidableEq, Repr

/-- The canvas built by `combine_images`, with the placement of every
segment recorded. -/
structure CombinedCanvas where
  width : Nat
  height : Nat
  placements : List Placement
deriving DecidableEq, Repr

/-- `total_height` in `combine_images`: a wrapping `u32` sum of heights. -/
def sumHeights (images : List DynamicImage) : Nat :=
  images.foldl (fun a img => wrap (a + img.height)) 0

/-- The placement loop of `combine_images`: each image is resized to the
canvas width with its own height and copied at the running `y_offset`. -/
def placementsFrom (maxW : Nat) : Nat → List DynamicImage → List Placement
  | _, [] => []
  | y, img :: rest =>
    ⟨maxW, img.height, y⟩ :: placementsFrom maxW (wrap (y + img.height)) rest

/-- `ArchiveCleaner::combine_images`: canvas width
`images.iter().map(width).max().unwrap_or(0)`, canvas height the sum of
all heights, one placement per image at its cumulative vertical offset. -/
def combine_images (images : List DynamicImage) : CombinedCanvas :=
  let max_width := ((images.map (fun img => img.width)).max?).getD 0
  ⟨max_width, sumHeights images, placementsFrom max_width 0 images⟩

/-- One output entry of the strip path: the name written by
`start_file` plus the geometry of the cropped band. -/
structure BandEntry where
  name : String
  yStart : Nat
  width : Nat
  height : Nat
deriving DecidableEq, Repr

/-- The slicing loop of `process_manhwa_images`:
`num_slices = (total_height + slice_height - 1) / slice_height`; slice `i`
covers `[i*slice_height, min((i+1)*slice_height, total_height))` and is
written as `"{i+1}.webp"`. -/
def manhwaEntries (slice_height canvasW canvasH : Nat) : List BandEntry :=
  let num_slices := wrap (canvasH + slice_height - 1) / slice_height
  (List.range num_slices).map fun slice_index =>
    let yStart := wrap (slice_index * slice_height)
    let slice_bottom := min (wrap ((slice_index + 1) * slice_height)) canvasH
    ⟨toString (slice_index + 1) ++ ".webp", yStart, canvasW,
      slice_bottom - yStart⟩

/-- A file-system / container effect performed by a cleaning pass. -/
inductive PassEffect where
  | createTemp (p : ArchivePath)
  | writeEntry (name : String)
  | rename (src dst : ArchivePath)
deriving DecidableEq, Repr

/-- The renames contained in an effect trace. -/
def renamesOf (effs : List PassEffect) : List (ArchivePath × ArchivePath) :=
  effs.filterMap fun e =>
    match e with
    | PassEffect.rename a b => some (a, b)
    | _ => none

/-- The encode/write loop of `process_manhwa_images`: per slice, encode
(which may fail, aborting the loop with the entries so far written) and
then write the entry.  Returns the entry-write effects and whether every
encode succeeded. -/
def writeSlices (encodeOk : Nat → Bool) :
    Nat → List BandEntry → List PassEffect × Bool
  | _, [] => ([], true)
  | i, e :: rest =>
    if encodeOk i then
      let r := writeSlices encodeOk (i + 1) rest
      (PassEffect.writeEntry e.name :: r.1, r.2)
    else ([], false)

/-- `ArchiveCleaner::process_manhwa_images` (the strip path): create
`"{stem}.temp.cbz"`, write one entry per band of the combined canvas, and
on success rename the temporary file onto `"{stem}.cbz"`.  An encode
failure aborts before the rename. -/
def process_manhwa_images (minSize : ImageInfo) (archivePath : ArchivePath)
    (encodeOk : Nat → Bool) (images : List DynamicImage) :
    List PassEffect × Except String Unit :=
  let info := extract_file_info archivePath
  let temp : ArchivePath := ⟨info.2, info.1 ++ ".temp.cbz"⟩
  let c := combine_images images
  let bands := manhwaEntries minSize.height c.width c.height
  let r := writeSlices encodeOk 0 bands
  if r.2 then
    (PassEffect.createTemp temp :: r.1
        ++ [PassEffect.rename temp ⟨info.2, info.1 ++ ".cbz"⟩],
      Except.ok ())
  else
    (PassEffect.createTemp temp :: r.1, Except.error "encode error")

/-- One observable step of a paged-path worker (`process_image`), in the
order the Rust function performs them. -/
inductive WorkerStep where
  | lockWriter
  | checkCriteria
  | resize
  | encode
  | startFile (name : String)
  | writeData
  | unlockWriter
deriving DecidableEq, Repr

deriving instance DecidableEq for Except

/-- The outcome of one paged-path worker: its step trace, its returned
result, and the container entries it wrote. -/
structure WorkerOutcome where
  trace : List WorkerStep
  result : Except String Unit
  written : List String
deriving DecidableEq, Repr

/-- `ArchiveCleaner::process_image`: lock the shared `ZipWriter` first;
then re-check the criterion (returning an error without writing when it
fails), resize, encode (`encodeOk` models encoder success), start the
entry `"{index+1}.webp"` and write it.  The mutex guard is released when
the function returns, on every path on which the lock was acquired. -/
def process_image (minSize : ImageInfo) (index : Nat) (image : DynamicImage)
    (lockOk : Bool) (encodeOk : Bool) : WorkerOutcome :=
  if !lockOk then
    ⟨[], Except.error "Failed to lock ZipWriter", []⟩
  else if !image_meets_criteria minSize image.width image.height then
    ⟨[WorkerStep.lockWriter, WorkerStep.checkCriteria, WorkerStep.unlockWriter],
      Except.error "Processing error", []⟩
  else if !encodeOk then
    ⟨[WorkerStep.lockWriter, WorkerStep.checkCriteria, WorkerStep.resize,
        WorkerStep.encode, WorkerStep.unlockWriter],
      Except.error "encode error", []⟩
  else
    ⟨[WorkerStep.lockWriter, WorkerStep.checkCriteria, WorkerStep.resize,
        WorkerStep.encode, WorkerStep.startFile (toString (index + 1) ++ ".webp"),
        WorkerStep.writeData, WorkerStep.unlockWriter],
      Except.ok (),
      [toString (index + 1) ++ ".webp"]⟩

/-- The spawn loop of `process_images_threaded`: worker `i` runs
`process_image` on image `i`; a worker's error is caught inside the
spawned closure (only a spinner message is emitted), so no error
propagates out of this function. -/
def workersFrom (minSize : ImageInfo) (lockOk encodeOk : Nat → Bool) :
    Nat → List DynamicImage → List WorkerOutcome
  | _, [] => []
  | i, img :: rest =>
    process_image minSize i img (lockOk i) (encodeOk i)
      :: workersFrom minSize lockOk encodeOk (i + 1) rest

/-- `process_images_threaded`: one worker per image, indices from 0. -/
def process_images_threaded (minSize : ImageInfo)
    (lockOk encodeOk : Nat → Bool) (images : List DynamicImage) :
    List WorkerOutcome :=
  workersFrom minSize lockOk encodeOk 0 images

/-- `ArchiveCleaner::process_non_manhwa_images` (the paged path): create
`"{stem}.temp.cbz"`, run the workers, join them all, and rename the
temporary file onto `"{stem}.cbz"` unconditionally — worker errors were
swallowed inside the spawn loop. -/
def process_non_manhwa_images (minSize : ImageInfo)
    (archivePath : ArchivePath) (lockOk encodeOk : Nat → Bool)
    (images : List DynamicImage) : List PassEffect × Except String Unit :=
  let info := extract_file_info archivePath
  let temp : ArchivePath := ⟨info.2, info.1 ++ ".temp.cbz"⟩
  let outs := process_images_threaded minSize lockOk encodeOk images
  (PassEffect.createTemp temp
      :: (outs.map (fun o => o.written.map PassEffect.writeEntry)).flatten
      ++ [PassEffect.rename temp ⟨info.2, info.1 ++ ".cbz"⟩],
    Except.ok ())

/-- An entry of the source zip container: its name and raw bytes. -/
structure ZipFileEntry where
  name : String
  data : List Nat
deriving DecidableEq, Repr

/-- Rust `str::ends_with`, on the character sequence of the strings. -/
def strEndsWith (name suffix : String) : Bool :=
  suffix.data.isSuffixOf name.data

/-- `ArchiveCleaner::is_image`: the file-name suffix filter. -/
def is_image (file_name : String) : Bool :=
  strEndsWith file_name ".webp" || strEndsWith file_name ".jpg"
    || strEndsWith file_name ".jpeg" || strEndsWith file_name ".png"

/-- The entry loop of `read_images_from_archive`: entry `i` is skipped
unless `is_image` accepts its name; reading an image entry's bytes may
fail (`readOk`), which aborts the whole read; bytes that fail to decode
(`decode` returns `none`) are silently dropped. -/
def readImagesGo (decode : List Nat → Option DynamicImage)
    (readOk : Nat → Bool) :
    Nat → List ZipFileEntry → Except String (List DynamicImage)
  | _, [] => Except.ok []
  | i, e :: rest =>
    if is_image e.name then
      if readOk i then
        match decode e.data with
        | some img =>
          (readImagesGo decode readOk (i + 1) rest).map fun l => img :: l
        | none => readImagesGo decode readOk (i + 1) rest
      else Except.error "read failure"
    else readImagesGo decode readOk (i + 1) rest

/-- `ArchiveCleaner::read_images_from_archive`: opening the container may
fail (`openOk`); otherwise the entries are scanned in container order. -/
def read_images_from_archive (decode : List Nat → Option DynamicImage)
    (openOk : Bool) (entries : List ZipFileEntry) (readOk : Nat → Bool) :
    Except String (List DynamicImage) :=
  if openOk then readImagesGo decode readOk 0 entries
  else Except.error "open failure"

/-- `ArchiveCleaner::clean_archive_file` for a cleaner built by
`ArchiveCleaner::new` (threshold `IMAGE_SIZE`, initial type `Manga`):
read the images, decide via `should_write_archive`, and dispatch on the
mutated `archive_type` field; when no rewrite is warranted nothing is
done.  Returns the effect trace and the pass result. -/
def clean_archive_file (decode : List Nat → Option DynamicImage)
    (openOk : Bool) (entries : List ZipFileEntry)
    (readOk lockOk encodeOk : Nat → Bool) (archivePath : ArchivePath)
    (max_images_to_check : Nat) : List PassEffect × Except String Unit :=
  match read_images_from_archive decode openOk entries readOk with
  | Except.error e =>
    ([], Except.error ("Failed to read images from archive: " ++ e))
  | Except.ok images =>
    let r := should_write_archive ⟨IMAGE_SIZE.1, IMAGE_SIZE.2⟩
        ArchiveType.Manga images max_images_to_check
    if r.1 then
      let w :=
        match r.2 with
        | ArchiveType.Manhwa =>
          process_manhwa_images ⟨IMAGE_SIZE.1, IMAGE_SIZE.2⟩ archivePath
            encodeOk images
        | ArchiveType.Manga =>
          process_non_manhwa_images ⟨IMAGE_SIZE.1, IMAGE_SIZE.2⟩ archivePath
            lockOk encodeOk images
      match w.2 with
      | Except.ok _ => (w.1, Except.ok ())
      | Except.error e =>
        (w.1, Except.error ("Failed to write archive: " ++ e))
    else ([], Except.ok ())

/-- Modelled from the spec (§4.2), for the refinement claim about the
classifier: the oversize criterion of an image under its own
classification — Strip: `height > thresholdHeight`; Paged:
`width > thresholdWidth AND height > thresholdHeight`. -/
def specCriterion (tw th : Nat) (img : DynamicImage) : Bool :=
  if 3 * img.width ≤ img.height then decide (th < img.height)
  else decide (tw < img.width) && decide (th < img.height)

/-- Modelled from the spec (§3): Strip when `height ≥ 3×width`, else
Paged (`Manhwa` is the strip layout, `Manga` the paged layout). -/
def specClassify (img : DynamicImage) : ArchiveType :=
  if 3 * img.width ≤ img.height then ArchiveType.Manhwa
  else ArchiveType.Manga

/-- Modelled from the spec (§4.2): the archive-wide decision is the
classification of the first sampled image satisfying its own criterion,
or `none` (do not rewrite) when no sampled image does. -/
def classifierSpecDecision (tw th : Nat) (images : List DynamicImage)
    (bound : Nat) : Option ArchiveType :=
  ((images.take bound).find? (specCriterion tw th)).map specClassify

/-! ## Helper lemmas -/

theorem wrap_eq_of_lt {n : Nat} (h : n < u32Mod) : wrap n = n :=
  Nat.mod_eq_of_lt h

theorem renamesOf_append (l₁ l₂ : List PassEffect) :
    renamesOf (l₁ ++ l₂) = renamesOf l₁ ++ renamesOf l₂ := by
  simp [renamesOf]

theorem renamesOf_writeEntry_map (names : List String) :
    renamesOf (names.map PassEffect.writeEntry) = [] := by
  induction names with
  | nil => rfl
  | cons n rest ih => simp [renamesOf]

theorem renamesOf_writeSlices (encodeOk : Nat → Bool) :
    ∀ (bands : List BandEntry) (i : Nat),
      renamesOf (writeSlices encodeOk i bands).1 = [] := by
  intro bands
  induction bands with
  | nil => intro i; rfl
  | cons b rest ih =>
    intro i
    by_cases h : encodeOk i = true
    · simpa [writeSlices, h, renamesOf] using ih (i + 1)
    · simp [writeSlices, Bool.eq_false_iff.2 h, renamesOf]

theorem renamesOf_worker_writes (outs : List WorkerOutcome) :
    renamesOf ((outs.map fun o => o.written.map PassEffect.writeEntry).flatten)
      = [] := by
  induction outs with
  | nil => rfl
  | cons o rest ih =>
    simp [renamesOf_append, renamesOf_writeEntry_map, ih]

/-- The image criterion agrees with the spec-modelled criterion whenever
`3 * width` does not overflow `u32`. -/
theorem criteria_eq_spec (tw th : Nat) (img : DynamicImage)
    (hw : 3 * img.width < u32Mod) :
    image_meets_criteria ⟨tw, th⟩ img.width img.height
      = specCriterion tw th img := by
  unfold image_meets_criteria specCriterion
  rw [wrap_eq_of_lt hw]
  by_cases h3 : 3 * img.width ≤ img.height
  · simp [h3, Nat.not_lt.2 h3]
  · simp [h3, Nat.lt_of_not_le h3]

/-- The per-image classification agrees with the spec-modelled one
whenever `3 * width` does not overflow `u32`. -/
theorem classify_eq_spec (img : DynamicImage)
    (hw : 3 * img.width < u32Mod) : classifyImage img = specClassify img := by
  unfold classifyImage specClassify
  rw [wrap_eq_of_lt hw]

theorem should_write_go_spec (tw th : Nat) (l : List DynamicImage)
    (hw : ∀ img ∈ l, 3 * img.width < u32Mod) : ∀ ty : ArchiveType,
    (should_write_archive_go ⟨tw, th⟩ ty l).1
        = (l.find? (specCriterion tw th)).isSome
    ∧ ∀ k, (l.find? (specCriterion tw th)).map specClassify = some k
        → (should_write_archive_go ⟨tw, th⟩ ty l).2 = k := by
  induction l with
  | nil => intro ty; simp [should_write_archive_go]
  | cons img rest ih =>
    intro ty
    have hw1 : 3 * img.width < u32Mod := hw img (by simp)
    have hwr : ∀ x ∈ rest, 3 * x.width < u32Mod := fun x hx =>
      hw x (List.mem_cons_of_mem _ hx)
    have hc := criteria_eq_spec tw th img hw1
    by_cases hcrit : specCriterion tw th img = true
    · constructor
      · simp [should_write_archive_go, hc, hcrit,
          List.find?_cons_of_pos _ hcrit]
      · intro k hk
        rw [List.find?_cons_of_pos _ hcrit] at hk
        simp only [Option.map_some'] at hk
        have hk' : specClassify img = k := Option.some.inj hk
        simp [should_write_archive_go, hc, hcrit, ← hk',
          classify_eq_spec img hw1]
    · have hcrit' : specCriterion tw th img = false :=
        Bool.eq_false_iff.2 hcrit
      constructor
      · simp [should_write_archive_go, hc, hcrit',
          List.find?_cons_of_neg _ hcrit]
        exact (ih hwr (classifyImage img)).1
      · intro k hk
        rw [List.find?_cons_of_neg _ hcrit] at hk
        simp [should_write_archive_go, hc, hcrit']
        exact (ih hwr (classifyImage img)).2 k hk

theorem not_suffix_of_common {a b s : List Char} (ha : a <:+ s)
    (h1 : ¬ a <:+ b) (h2 : ¬ b <:+ a) : ¬ b <:+ s := fun hb =>
  (List.suffix_or_suffix_of_suffix ha hb).elim h1 h2

/-- If the file name ends in a pattern that neither contains nor is
contained in any of the four accepted image suffixes (as a suffix), then
`is_image` rejects it. -/
theorem is_image_false_of_suffix_clash (name pat : String)
    (hpat : pat.data.isSuffixOf name.data = true)
    (hw : ¬ (".webp".data <:+ pat.data) ∧ ¬ (pat.data <:+ ".webp".data))
    (hj : ¬ (".jpg".data <:+ pat.data) ∧ ¬ (pat.data <:+ ".jpg".data))
    (hje : ¬ (".jpeg".data <:+ pat.data) ∧ ¬ (pat.data <:+ ".jpeg".data))
    (hp : ¬ (".png".data <:+ pat.data) ∧ ¬ (pat.data <:+ ".png".data)) :
    is_image name = false := by
  have ha : pat.data <:+ name.data := List.isSuffixOf_iff_suffix.mp hpat
  have conv : ∀ q : List Char,
      ¬ (q <:+ name.data) → (q.isSuffixOf name.data) = false := fun q hn =>
    Bool.eq_false_iff.mpr fun hh => hn (List.isSuffixOf_iff_suffix.mp hh)
  have c1 := conv _ (not_suffix_of_common ha hw.2 hw.1)
  have c2 := conv _ (not_suffix_of_common ha hj.2 hj.1)
  have c3 := conv _ (not_suffix_of_common ha hje.2 hje.1)
  have c4 := conv _ (not_suffix_of_common ha hp.2 hp.1)
  simp [is_image, strEndsWith, c1, c2, c3, c4]

/-! ## Claims -/

/-- C4: for every archive in which none of the sampled images meets the
oversize criterion, a cleaning pass performs no file-system effect at
all — no temporary container is created, no entry is written, and no
rename replaces the original — and the pass reports success. -/
theorem no_criteria_met_pass_is_noop
    (decode : List Nat → Option DynamicImage) (openOk : Bool)
    (entries : List ZipFileEntry) (readOk lockOk encodeOk : Nat → Bool)
    (p : ArchivePath) (maxI : Nat) (images : List DynamicImage)
    (hread : read_images_from_archive decode openOk entries readOk
        = Except.ok images)
    (hno : (should_write_archive ⟨IMAGE_SIZE.1, IMAGE_SIZE.2⟩
        ArchiveType.Manga images maxI).1 = false) :
    clean_archive_file decode openOk entries readOk lockOk encodeOk p maxI
      = ([], Except.ok ()) := by
  unfold clean_archive_file
  rw [hread]
  simp [hno]

/-- Witness for C4, the spec's concrete scenario 3: five 600×800 pages,
no sampled image meets the criterion, the pass performs no effect. -/
theorem no_criteria_met_pass_is_noop_w :
    (read_images_from_archive (fun _ => some ⟨600, 800⟩) true
        [⟨"1.png", []⟩, ⟨"2.png", []⟩, ⟨"3.png", []⟩, ⟨"4.png", []⟩,
          ⟨"5.png", []⟩] (fun _ => true)
      = Except.ok [⟨600, 800⟩, ⟨600, 800⟩, ⟨600, 800⟩, ⟨600, 800⟩,
          ⟨600, 800⟩])
    ∧ ((should_write_archive ⟨IMAGE_SIZE.1, IMAGE_SIZE.2⟩ ArchiveType.Manga
        [⟨600, 800⟩, ⟨600, 800⟩, ⟨600, 800⟩, ⟨600, 800⟩, ⟨600, 800⟩] 5).1
      = false)
    ∧ clean_archive_file (fun _ => some ⟨600, 800⟩) true
        [⟨"1.png", []⟩, ⟨"2.png", []⟩, ⟨"3.png", []⟩, ⟨"4.png", []⟩,
          ⟨"5.png", []⟩]
        (fun _ => true) (fun _ => true) (fun _ => true) ⟨"d", "a.zip"⟩ 5
      = ([], Except.ok ()) :=
  ⟨by decide, by decide,
    no_criteria_met_pass_is_noop (fun _ => some ⟨600, 800⟩) true
      [⟨"1.png", []⟩, ⟨"2.png", []⟩, ⟨"3.png", []⟩, ⟨"4.png", []⟩,
        ⟨"5.png", []⟩]
      (fun _ => true) (fun _ => true) (fun _ => true) ⟨"d", "a.zip"⟩ 5
      [⟨600, 800⟩, ⟨600, 800⟩, ⟨600, 800⟩, ⟨600, 800⟩, ⟨600, 800⟩]
      (by decide) (by decide)⟩

/-- C2, counterexample: in the spec's concrete scenario 1 (pages
800×1000, 800×1100, 800×1050, threshold 1024×1024, maxImagesToCheck 5)
no rewrite is triggered at all — image 2 is classified Paged but its
width 800 is not greater than 1024, so the Paged criterion fails — and
the pass writes nothing, contradicting the claimed output of three
entries. -/
theorem scenario1_rewrite_not_triggered :
    (should_write_archive ⟨IMAGE_SIZE.1, IMAGE_SIZE.2⟩ ArchiveType.Manga
        [⟨800, 1000⟩, ⟨800, 1100⟩, ⟨800, 1050⟩] 5).1 = false
    ∧ (clean_archive_file
        (fun d => if d = [1] then some ⟨800, 1000⟩
          else if d = [2] then some ⟨800, 1100⟩ else some ⟨800, 1050⟩)
        true [⟨"1.jpg", [1]⟩, ⟨"2.jpg", [2]⟩, ⟨"3.jpg", [3]⟩]
        (fun _ => true) (fun _ => true) (fun _ => true)
        ⟨"d", "a.zip"⟩ 5).1 = [] := by decide

/-- C2, amended: in scenario 1, image 2 is classified Paged
(1100 < 3×800) but fails the Paged criterion (width 800 ≤ 1024); no
sampled image meets its criterion, the decision is "do not rewrite", and
the pass leaves the archive untouched, producing no entries. -/
theorem scenario1_pass_leaves_archive_untouched :
    classifyImage ⟨800, 1100⟩ = ArchiveType.Manga
    ∧ image_meets_criteria ⟨IMAGE_SIZE.1, IMAGE_SIZE.2⟩ 800 1100 = false
    ∧ should_write_archive ⟨IMAGE_SIZE.1, IMAGE_SIZE.2⟩ ArchiveType.Manga
        [⟨800, 1000⟩, ⟨800, 1100⟩, ⟨800, 1050⟩] 5
      = (false, ArchiveType.Manga)
    ∧ clean_archive_file
        (fun d => if d = [1] then some ⟨800, 1000⟩
          else if d = [2] then some ⟨800, 1100⟩ else some ⟨800, 1050⟩)
        true [⟨"1.jpg", [1]⟩, ⟨"2.jpg", [2]⟩, ⟨"3.jpg", [3]⟩]
        (fun _ => true) (fun _ => true) (fun _ => true)
        ⟨"d", "a.zip"⟩ 5
      = ([], Except.ok ()) := by decide

/-- C8: a paged-path worker whose image no longer meets the criterion
reports its outcome through the same channel as genuine errors (an
`Except.error`, exactly like lock and encode failures), writes no entry
to the container, and never reaches the append steps. -/
theorem criteria_not_met_worker_error_no_entry (minSize : ImageInfo)
    (index : Nat) (img : DynamicImage) (encodeOk : Bool)
    (h : image_meets_criteria minSize img.width img.height = false) :
    (process_image minSize index img true encodeOk).result
        = Except.error "Processing error"
    ∧ (process_image minSize index img true encodeOk).written = []
    ∧ (∀ s, WorkerStep.startFile s
        ∉ (process_image minSize index img true encodeOk).trace)
    ∧ WorkerStep.writeData
        ∉ (process_image minSize index img true encodeOk).trace := by
  simp [process_image, h]

/-- Witness for C8: a 600×800 page does not meet the 1024×1024
criterion; its worker errors out and writes nothing. -/
theorem criteria_not_met_worker_error_no_entry_w :
    image_meets_criteria ⟨IMAGE_SIZE.1, IMAGE_SIZE.2⟩ 600 800 = false
    ∧ ((process_image ⟨IMAGE_SIZE.1, IMAGE_SIZE.2⟩ 0 ⟨600, 800⟩ true
          true).result = Except.error "Processing error"
      ∧ (process_image ⟨IMAGE_SIZE.1, IMAGE_SIZE.2⟩ 0 ⟨600, 800⟩ true
          true).written = []
      ∧ (∀ s, WorkerStep.startFile s
          ∉ (process_image ⟨IMAGE_SIZE.1, IMAGE_SIZE.2⟩ 0 ⟨600, 800⟩ true
              true).trace)
      ∧ WorkerStep.writeData
          ∉ (process_image ⟨IMAGE_SIZE.1, IMAGE_SIZE.2⟩ 0 ⟨600, 800⟩ true
              true).trace) :=
  ⟨by decide,
    criteria_not_met_worker_error_no_entry ⟨IMAGE_SIZE.1, IMAGE_SIZE.2⟩ 0
      ⟨600, 800⟩ true (by decide)⟩

/-- C10: the suffix filter is case-sensitive — a name ending in ".PNG"
or ".Jpg" is rejected by `is_image`, and an archive entry so named is
excluded from the read pass. -/
theorem upper_case_suffix_not_image (name : String)
    (h : strEndsWith name ".PNG" = true ∨ strEndsWith name ".Jpg" = true) :
    is_image name = false
    ∧ ∀ (decode : List Nat → Option DynamicImage) (d : List Nat)
        (readOk : Nat → Bool),
        read_images_from_archive decode true [⟨name, d⟩] readOk
          = Except.ok [] := by
  have hni : is_image name = false := by
    rcases h with h | h
    · exact is_image_false_of_suffix_clash name ".PNG" h
        ⟨by decide, by decide⟩ ⟨by decide, by decide⟩
        ⟨by decide, by decide⟩ ⟨by decide, by decide⟩
    · exact is_image_false_of_suffix_clash name ".Jpg" h
        ⟨by decide, by decide⟩ ⟨by decide, by decide⟩
        ⟨by decide, by decide⟩ ⟨by decide, by decide⟩
  refine ⟨hni, fun decode d readOk => ?_⟩
  simp [read_images_from_archive, readImagesGo, hni]

/-- Witness for C10 at the concrete entry name "a.PNG". -/
theorem upper_case_suffix_not_image_w :
    (strEndsWith "a.PNG" ".PNG" = true ∨ strEndsWith "a.PNG" ".Jpg" = true)
    ∧ (is_image "a.PNG" = false
      ∧ ∀ (decode : List Nat → Option DynamicImage) (d : List Nat)
          (readOk : Nat → Bool),
          read_images_from_archive decode true [⟨"a.PNG", d⟩] readOk
            = Except.ok []) :=
  ⟨Or.inl (by decide), upper_case_suffix_not_image "a.PNG" (Or.inl (by decide))⟩

theorem renamesOf_cons_createTemp (p : ArchivePath) (l : List PassEffect) :
    renamesOf (PassEffect.createTemp p :: l) = renamesOf l := by
  simp [renamesOf]

theorem renamesOf_cons_rename (a b : ArchivePath) (l : List PassEffect) :
    renamesOf (PassEffect.rename a b :: l) = (a, b) :: renamesOf l := by
  simp [renamesOf]

theorem renamesOf_nil : renamesOf [] = [] := rfl

/-- C6, counterexample: for a 2000×2000 page (which meets the Paged
criterion) the worker's step trace acquires the writer lock as its
*first* step, resizes at step 2 and encodes at step 3 with no unlock
before them, and releases the lock only as the very last step — so the
worker does hold the writer lock while resizing and encoding, contrary
to the claim that it acquires the lock only after encoding. -/
theorem worker_resizes_encodes_while_holding_lock :
    (process_image ⟨IMAGE_SIZE.1, IMAGE_SIZE.2⟩ 0 ⟨2000, 2000⟩ true
        true).trace
      = [WorkerStep.lockWriter, WorkerStep.checkCriteria, WorkerStep.resize,
          WorkerStep.encode, WorkerStep.startFile "1.webp",
          WorkerStep.writeData, WorkerStep.unlockWriter]
    ∧ (process_image ⟨IMAGE_SIZE.1, IMAGE_SIZE.2⟩ 0 ⟨2000, 2000⟩ true
        true).trace[0]? = some WorkerStep.lockWriter
    ∧ (process_image ⟨IMAGE_SIZE.1, IMAGE_SIZE.2⟩ 0 ⟨2000, 2000⟩ true
        true).trace[2]? = some WorkerStep.resize
    ∧ (process_image ⟨IMAGE_SIZE.1, IMAGE_SIZE.2⟩ 0 ⟨2000, 2000⟩ true
        true).trace[3]? = some WorkerStep.encode
    ∧ (∀ k < 6, (process_image ⟨IMAGE_SIZE.1, IMAGE_SIZE.2⟩ 0 ⟨2000, 2000⟩
        true true).trace[k]? ≠ some WorkerStep.unlockWriter)
    ∧ (process_image ⟨IMAGE_SIZE.1, IMAGE_SIZE.2⟩ 0 ⟨2000, 2000⟩ true
        true).trace[6]? = some WorkerStep.unlockWriter := by decide

/-- C6, amended: a paged-path worker that acquires the writer lock does
so as its *first* action and holds the lock for its entire execution —
the criterion re-check, the resize, the encode and the append all happen
while the lock is held, and the lock is released only as the final
step. -/
theorem worker_acquires_lock_first (minSize : ImageInfo) (index : Nat)
    (img : DynamicImage) (encodeOk : Bool) :
    (process_image minSize index img true encodeOk).trace.head?
        = some WorkerStep.lockWriter
    ∧ (process_image minSize index img true encodeOk).trace.getLast?
        = some WorkerStep.unlockWriter
    ∧ WorkerStep.unlockWriter
        ∉ (process_image minSize index img true encodeOk).trace.dropLast
    ∧ (image_meets_criteria minSize img.width img.height = true →
        WorkerStep.resize
            ∈ (process_image minSize index img true encodeOk).trace.dropLast
        ∧ WorkerStep.encode
            ∈ (process_image minSize index img true
                encodeOk).trace.dropLast) := by
  by_cases hc : image_meets_criteria minSize img.width img.height = true
  · by_cases he : encodeOk = true
    · simp [process_image, hc, he]
    · simp [process_image, hc, Bool.eq_false_iff.2 he]
  · simp [process_image, Bool.eq_false_iff.2 hc]

/-- Witness for C6 (amended) at a 2000×2000 page. -/
theorem worker_acquires_lock_first_w :
    image_meets_criteria ⟨IMAGE_SIZE.1, IMAGE_SIZE.2⟩ 2000 2000 = true
    ∧ (WorkerStep.resize
        ∈ (process_image ⟨IMAGE_SIZE.1, IMAGE_SIZE.2⟩ 0 ⟨2000, 2000⟩ true
            true).trace.dropLast
      ∧ WorkerStep.encode
        ∈ (process_image ⟨IMAGE_SIZE.1, IMAGE_SIZE.2⟩ 0 ⟨2000, 2000⟩ true
            true).trace.dropLast)
    ∧ (process_image ⟨IMAGE_SIZE.1, IMAGE_SIZE.2⟩ 0 ⟨2000, 2000⟩ true
        true).trace.head? = some WorkerStep.lockWriter :=
  ⟨by decide,
    (worker_acquires_lock_first ⟨IMAGE_SIZE.1, IMAGE_SIZE.2⟩ 0 ⟨2000, 2000⟩
        true).2.2.2 (by decide),
    (worker_acquires_lock_first ⟨IMAGE_SIZE.1, IMAGE_SIZE.2⟩ 0 ⟨2000, 2000⟩
        true).1⟩

/-- C7, counterexample: with every lock acquisition failing, the worker
reports the lock error, yet the pass still completes successfully and
the final rename is still performed — the original archive *is*
replaced, contrary to the claim that a lock failure is fatal to the pass
and prevents the rename. -/
theorem lock_failure_pass_renames_anyway :
    (process_image ⟨IMAGE_SIZE.1, IMAGE_SIZE.2⟩ 0 ⟨2000, 2000⟩ false
        true).result = Except.error "Failed to lock ZipWriter"
    ∧ renamesOf (clean_archive_file (fun _ => some ⟨2000, 2000⟩) true
        [⟨"1.jpg", []⟩] (fun _ => true) (fun _ => false) (fun _ => true)
        ⟨"d", "a.zip"⟩ 5).1
      = [(⟨"d", "a.temp.cbz"⟩, ⟨"d", "a.cbz"⟩)]
    ∧ (clean_archive_file (fun _ => some ⟨2000, 2000⟩) true
        [⟨"1.jpg", []⟩] (fun _ => true) (fun _ => false) (fun _ => true)
        ⟨"d", "a.zip"⟩ 5).2 = Except.ok () := by decide

/-- C7, amended: a worker that fails to acquire the writer lock reports
an error for that image only and writes no entry; the error is not
retried but also not propagated — the paged pass always completes
successfully and performs its single final rename regardless of lock
failures, so the original archive is still replaced (by a container
missing the failed workers' entries). -/
theorem lock_failure_is_local_not_fatal (minSize : ImageInfo)
    (p : ArchivePath) (images : List DynamicImage)
    (lockOk encodeOk : Nat → Bool) :
    (process_non_manhwa_images minSize p lockOk encodeOk images).2
        = Except.ok ()
    ∧ renamesOf (process_non_manhwa_images minSize p lockOk encodeOk
          images).1
        = [(⟨p.dir, stemOf p.fileName ++ ".temp.cbz"⟩,
            ⟨p.dir, stemOf p.fileName ++ ".cbz"⟩)]
    ∧ ∀ (i : Nat) (img : DynamicImage), lockOk i = false →
        (process_image minSize i img (lockOk i) (encodeOk i)).written = []
        ∧ (process_image minSize i img (lockOk i) (encodeOk i)).result
            = Except.error "Failed to lock ZipWriter" := by
  refine ⟨rfl, ?_, ?_⟩
  · simp only [process_non_manhwa_images, extract_file_info,
      renamesOf_cons_createTemp, renamesOf_append, renamesOf_worker_writes,
      renamesOf_cons_rename, renamesOf_nil, List.nil_append]
  · intro i img h
    simp [process_image, h]

/-- Witness for C7 (amended) at a single 2000×2000 page whose worker
cannot acquire the lock. -/
theorem lock_failure_is_local_not_fatal_w :
    (process_non_manhwa_images ⟨IMAGE_SIZE.1, IMAGE_SIZE.2⟩ ⟨"d", "a.zip"⟩
        (fun _ => false) (fun _ => true) [⟨2000, 2000⟩]).2 = Except.ok ()
    ∧ renamesOf (process_non_manhwa_images ⟨IMAGE_SIZE.1, IMAGE_SIZE.2⟩
          ⟨"d", "a.zip"⟩ (fun _ => false) (fun _ => true)
          [⟨2000, 2000⟩]).1
        = [(⟨"d", "a.temp.cbz"⟩, ⟨"d", "a.cbz"⟩)]
    ∧ ((process_image ⟨IMAGE_SIZE.1, IMAGE_SIZE.2⟩ 0 ⟨2000, 2000⟩ false
          true).written = []
      ∧ (process_image ⟨IMAGE_SIZE.1, IMAGE_SIZE.2⟩ 0 ⟨2000, 2000⟩ false
          true).result = Except.error "Failed to lock ZipWriter") :=
  have h := lock_failure_is_local_not_fatal ⟨IMAGE_SIZE.1, IMAGE_SIZE.2⟩
    ⟨"d", "a.zip"⟩ [⟨2000, 2000⟩] (fun _ => false) (fun _ => true)
  ⟨h.1, h.2.1, h.2.2 0 ⟨2000, 2000⟩ rfl⟩

theorem readImagesGo_all_ok (decode : List Nat → Option DynamicImage) :
    ∀ (entries : List ZipFileEntry) (k : Nat),
      readImagesGo decode (fun _ => true) k entries
        = Except.ok (entries.filterMap fun e =>
            if is_image e.name then decode e.data else none) := by
  intro entries
  induction entries with
  | nil => intro k; rfl
  | cons e rest ih =>
    intro k
    by_cases hn : is_image e.name = true
    · cases hd : decode e.data with
      | some img =>
        simp [readImagesGo, hn, hd, ih (k + 1), List.filterMap_cons,
          Except.map]
      | none =>
        simp [readImagesGo, hn, hd, ih (k + 1), List.filterMap_cons]
    · simp [readImagesGo, Bool.eq_false_iff.2 hn, ih (k + 1),
        List.filterMap_cons]

theorem readImagesGo_read_failure (decode : List Nat → Option DynamicImage)
    (readOk : Nat → Bool) :
    ∀ (entries : List ZipFileEntry) (k : Nat),
      (∃ i, ∃ h : i < entries.length,
          is_image (entries.get ⟨i, h⟩).name = true ∧ readOk (k + i) = false)
      → ∃ msg, readImagesGo decode readOk k entries = Except.error msg := by
  intro entries
  induction entries with
  | nil =>
    intro k hex
    obtain ⟨i, hi, _⟩ := hex
    exact absurd hi (by simp)
  | cons e rest ih =>
    intro k hex
    obtain ⟨i, hi, himg, hro⟩ := hex
    by_cases hn : is_image e.name = true
    · by_cases hrk : readOk k = true
      · have hipos : i ≠ 0 := by
          intro h0
          subst h0
          rw [Nat.add_zero] at hro
          exact absurd hrk (by simp [hro])
        obtain ⟨j, rfl⟩ : ∃ j, i = j + 1 := ⟨i - 1, by omega⟩
        have hj : j < rest.length := by
          simpa [Nat.succ_lt_succ_iff] using hi
        have hrec := ih (k + 1) ⟨j, hj, by simpa using himg,
          by rw [show k + 1 + j = k + (j + 1) by omega]; exact hro⟩
        obtain ⟨msg, hmsg⟩ := hrec
        cases hd : decode e.data with
        | some img =>
          exact ⟨msg, by simp [readImagesGo, hn, hrk, hd, hmsg, Except.map]⟩
        | none =>
          exact ⟨msg, by simp [readImagesGo, hn, hrk, hd, hmsg]⟩
      · exact ⟨"read failure",
          by simp [readImagesGo, hn, Bool.eq_false_iff.2 hrk]⟩
    · have hipos : i ≠ 0 := by
        intro h0
        subst h0
        exact hn (by simpa using himg)
      obtain ⟨j, rfl⟩ : ∃ j, i = j + 1 := ⟨i - 1, by omega⟩
      have hj : j < rest.length := by
        simpa [Nat.succ_lt_succ_iff] using hi
      have hrec := ih (k + 1) ⟨j, hj, by simpa using himg,
        by rw [show k + 1 + j = k + (j + 1) by omega]; exact hro⟩
      obtain ⟨msg, hmsg⟩ := hrec
      exact ⟨msg, by simp [readImagesGo, Bool.eq_false_iff.2 hn, hmsg]⟩

/-- C9: the archive reader (1) fails with an error when the container
cannot be opened; (2) when every entry read succeeds, returns exactly the
successfully-decoded buffers of the image-suffixed entries, in container
enumeration order, with entries that fail to decode silently dropped;
and (3) fails with an error when some image-suffixed entry cannot be
read. -/
theorem reader_contract (decode : List Nat → Option DynamicImage)
    (entries : List ZipFileEntry) (readOk : Nat → Bool) :
    read_images_from_archive decode false entries readOk
        = Except.error "open failure"
    ∧ read_images_from_archive decode true entries (fun _ => true)
        = Except.ok (entries.filterMap fun e =>
            if is_image e.name then decode e.data else none)
    ∧ ((∃ i, ∃ h : i < entries.length,
          is_image (entries.get ⟨i, h⟩).name = true ∧ readOk i = false)
        → ∃ msg, read_images_from_archive decode true entries readOk
            = Except.error msg) := by
  refine ⟨rfl, ?_, ?_⟩
  · simpa [read_images_from_archive] using readImagesGo_all_ok decode entries 0
  · intro h
    have hgo := readImagesGo_read_failure decode readOk entries 0
      (by simpa using h)
    simpa [read_images_from_archive] using hgo

/-- Witness for C9: a three-entry archive where `1.png` fails to decode
(dropped), `2.txt` is not an image (ignored) and `3.jpg` decodes; and a
read-failure configuration that aborts the read. -/
theorem reader_contract_w :
    read_images_from_archive
        (fun d => if d = [9] then none else some ⟨1, 2⟩) true
        [⟨"1.png", [9]⟩, ⟨"2.txt", []⟩, ⟨"3.jpg", [1]⟩] (fun _ => true)
      = Except.ok [⟨1, 2⟩]
    ∧ ∃ msg, read_images_from_archive
        (fun d => if d = [9] then none else some ⟨1, 2⟩) true
        [⟨"1.png", [9]⟩, ⟨"2.txt", []⟩, ⟨"3.jpg", [1]⟩] (fun _ => false)
      = Except.error msg :=
  have h := reader_contract (fun d => if d = [9] then none else some ⟨1, 2⟩)
    [⟨"1.png", [9]⟩, ⟨"2.txt", []⟩, ⟨"3.jpg", [1]⟩] (fun _ => false)
  ⟨(reader_contract (fun d => if d = [9] then none else some ⟨1, 2⟩)
      [⟨"1.png", [9]⟩, ⟨"2.txt", []⟩, ⟨"3.jpg", [1]⟩] (fun _ => false)).2.1,
    h.2.2 ⟨0, by decide, by decide, rfl⟩⟩

/-- C3: the classifier scans at most `maxImagesToCheck` images in order,
classifies each as Strip (`Manhwa`) when `height ≥ 3×width` and Paged
(`Manga`) otherwise, tests each image against its own classification's
criterion, and the archive-wide decision is "rewrite" exactly when some
sampled image meets its criterion, in which case the recorded
classification is that of the *first* such image (spec-modelled
first-match semantics `classifierSpecDecision`).  The hypothesis rules
out `u32` overflow in `3 * width`. -/
theorem classifier_first_match (tw th : Nat) (images : List DynamicImage)
    (bound : Nat) (hw : ∀ img ∈ images, 3 * img.width < u32Mod) :
    (should_write_archive ⟨tw, th⟩ ArchiveType.Manga images bound).1
        = (classifierSpecDecision tw th images bound).isSome
    ∧ ∀ k, classifierSpecDecision tw th images bound = some k
        → (should_write_archive ⟨tw, th⟩ ArchiveType.Manga images bound).2
            = k := by
  have hw' : ∀ img ∈ images.take bound, 3 * img.width < u32Mod :=
    fun img h => hw img (List.take_subset _ _ h)
  have h := should_write_go_spec tw th (images.take bound) hw'
    ArchiveType.Manga
  refine ⟨?_, fun k hk => ?_⟩
  · unfold should_write_archive classifierSpecDecision
    rw [h.1]
    simp
  · unfold should_write_archive
    exact h.2 k (by simpa [classifierSpecDecision] using hk)

/-- Witness for C3: the second image (700×2200) is the first to meet its
criterion, so the decision is "rewrite as Strip". -/
theorem classifier_first_match_w :
    (should_write_archive ⟨IMAGE_SIZE.1, IMAGE_SIZE.2⟩ ArchiveType.Manga
        [⟨800, 1000⟩, ⟨700, 2200⟩] 5).1
      = (classifierSpecDecision IMAGE_SIZE.1 IMAGE_SIZE.2
          [⟨800, 1000⟩, ⟨700, 2200⟩] 5).isSome
    ∧ (should_write_archive ⟨IMAGE_SIZE.1, IMAGE_SIZE.2⟩ ArchiveType.Manga
        [⟨800, 1000⟩, ⟨700, 2200⟩] 5).2 = ArchiveType.Manhwa :=
  have h := classifier_first_match IMAGE_SIZE.1 IMAGE_SIZE.2
    [⟨800, 1000⟩, ⟨700, 2200⟩] 5 (by decide)
  ⟨h.1, h.2 ArchiveType.Manhwa (by decide)⟩

/-- In the paged path the rename is unconditional: the temporary
container is renamed onto `"{stem}.cbz"` exactly once. -/
theorem renamesOf_paged (minSize : ImageInfo) (p : ArchivePath)
    (lockOk encodeOk : Nat → Bool) (images : List DynamicImage) :
    renamesOf (process_non_manhwa_images minSize p lockOk encodeOk
        images).1
      = [(⟨p.dir, stemOf p.fileName ++ ".temp.cbz"⟩,
          ⟨p.dir, stemOf p.fileName ++ ".cbz"⟩)] := by
  simp only [process_non_manhwa_images, extract_file_info,
    renamesOf_cons_createTemp, renamesOf_append, renamesOf_worker_writes,
    renamesOf_cons_rename, renamesOf_nil, List.nil_append]

/-- In the strip path, a successful pass renames the temporary container
onto `"{stem}.cbz"` exactly once. -/
theorem renamesOf_manhwa_ok (minSize : ImageInfo) (p : ArchivePath)
    (encodeOk : Nat → Bool) (images : List DynamicImage)
    (h : (process_manhwa_images minSize p encodeOk images).2
        = Except.ok ()) :
    renamesOf (process_manhwa_images minSize p encodeOk images).1
      = [(⟨p.dir, stemOf p.fileName ++ ".temp.cbz"⟩,
          ⟨p.dir, stemOf p.fileName ++ ".cbz"⟩)] := by
  have hflag : (writeSlices encodeOk 0 (manhwaEntries minSize.height
      (combine_images images).width (combine_images images).height)).2
      = true := by
    by_contra hf
    simp [process_manhwa_images, Bool.eq_false_iff.2 hf] at h
  simp [process_manhwa_images, hflag, extract_file_info,
    renamesOf_cons_createTemp, renamesOf_append, renamesOf_writeSlices,
    renamesOf_cons_rename, renamesOf_nil]

/-- C1, counterexample: a strip archive read from `"d/a.zip"` triggers a
rewrite, the pass succeeds, and its single rename installs the rewritten
container at the *sibling* path `"d/a.cbz"`, not at the input path
`"d/a.zip"` — the input path's contents are not replaced. -/
theorem rewrite_installs_sibling_cbz_not_input :
    (should_write_archive ⟨IMAGE_SIZE.1, IMAGE_SIZE.2⟩ ArchiveType.Manga
        [⟨700, 2200⟩] 5).1 = true
    ∧ (clean_archive_file (fun _ => some ⟨700, 2200⟩) true [⟨"1.png", []⟩]
        (fun _ => true) (fun _ => true) (fun _ => true)
        ⟨"d", "a.zip"⟩ 5).2 = Except.ok ()
    ∧ renamesOf (clean_archive_file (fun _ => some ⟨700, 2200⟩) true
        [⟨"1.png", []⟩] (fun _ => true) (fun _ => true) (fun _ => true)
        ⟨"d", "a.zip"⟩ 5).1
      = [(⟨"d", "a.temp.cbz"⟩, ⟨"d", "a.cbz"⟩)]
    ∧ ∀ r ∈ renamesOf (clean_archive_file (fun _ => some ⟨700, 2200⟩) true
        [⟨"1.png", []⟩] (fun _ => true) (fun _ => true) (fun _ => true)
        ⟨"d", "a.zip"⟩ 5).1,
        r.2 ≠ (⟨"d", "a.zip"⟩ : ArchivePath) := by decide

/-- C1, amended: every archive pass that triggers a rewrite and succeeds
performs exactly one atomic rename, moving the temporary container
`"{stem}.temp.cbz"` onto `"{stem}.cbz"` in the input's directory, where
`stem` is the input file name up to its last dot.  The rename target
coincides with the input path precisely when the input file name already
ends in `.cbz` (i.e. equals `stem ++ ".cbz"`); otherwise the rewritten
contents appear at the sibling `.cbz` path and the input file itself is
left in place. -/
theorem rewrite_pass_single_rename_to_stem_cbz
    (decode : List Nat → Option DynamicImage) (openOk : Bool)
    (entries : List ZipFileEntry) (readOk lockOk encodeOk : Nat → Bool)
    (p : ArchivePath) (maxI : Nat) (images : List DynamicImage)
    (hread : read_images_from_archive decode openOk entries readOk
        = Except.ok images)
    (htrig : (should_write_archive ⟨IMAGE_SIZE.1, IMAGE_SIZE.2⟩
        ArchiveType.Manga images maxI).1 = true)
    (hok : (clean_archive_file decode openOk entries readOk lockOk encodeOk
        p maxI).2 = Except.ok ()) :
    renamesOf (clean_archive_file decode openOk entries readOk lockOk
        encodeOk p maxI).1
      = [(⟨p.dir, stemOf p.fileName ++ ".temp.cbz"⟩,
          ⟨p.dir, stemOf p.fileName ++ ".cbz"⟩)]
    ∧ ((⟨p.dir, stemOf p.fileName ++ ".cbz"⟩ : ArchivePath) = p
        ↔ p.fileName = stemOf p.fileName ++ ".cbz") := by
  constructor
  · simp only [clean_archive_file, hread, htrig, if_true] at hok ⊢
    cases hty : (should_write_archive ⟨IMAGE_SIZE.1, IMAGE_SIZE.2⟩
        ArchiveType.Manga images maxI).2 with
    | Manhwa =>
      simp only [hty] at hok ⊢
      cases hw2 : (process_manhwa_images ⟨IMAGE_SIZE.1, IMAGE_SIZE.2⟩ p
          encodeOk images).2 with
      | ok u =>
        cases u
        simp only [hw2]
        exact renamesOf_manhwa_ok _ _ _ _ hw2
      | error e => simp [hw2] at hok
    | Manga =>
      simp only [hty] at hok ⊢
      exact renamesOf_paged _ _ _ _ _
  · cases p with
    | mk d f => simp [ArchivePath.mk.injEq, eq_comm]

/-- Witness for C1 (amended) at the concrete strip archive `"d/a.zip"`. -/
theorem rewrite_pass_single_rename_to_stem_cbz_w :
    read_images_from_archive (fun _ => some ⟨700, 2200⟩) true
        [⟨"1.png", []⟩] (fun _ => true) = Except.ok [⟨700, 2200⟩]
    ∧ (should_write_archive ⟨IMAGE_SIZE.1, IMAGE_SIZE.2⟩ ArchiveType.Manga
        [⟨700, 2200⟩] 5).1 = true
    ∧ (clean_archive_file (fun _ => some ⟨700, 2200⟩) true [⟨"1.png", []⟩]
        (fun _ => true) (fun _ => true) (fun _ => true)
        ⟨"d", "a.zip"⟩ 5).2 = Except.ok ()
    ∧ (renamesOf (clean_archive_file (fun _ => some ⟨700, 2200⟩) true
          [⟨"1.png", []⟩] (fun _ => true) (fun _ => true) (fun _ => true)
          ⟨"d", "a.zip"⟩ 5).1
        = [(⟨"d", stemOf "a.zip" ++ ".temp.cbz"⟩,
            ⟨"d", stemOf "a.zip" ++ ".cbz"⟩)]
      ∧ ((⟨"d", stemOf "a.zip" ++ ".cbz"⟩ : ArchivePath) = ⟨"d", "a.zip"⟩
          ↔ ("a.zip" : String) = stemOf "a.zip" ++ ".cbz")) :=
  ⟨by decide, by decide, by decide,
    rewrite_pass_single_rename_to_stem_cbz (fun _ => some ⟨700, 2200⟩) true
      [⟨"1.png", []⟩] (fun _ => true) (fun _ => true) (fun _ => true)
      ⟨"d", "a.zip"⟩ 5 [⟨700, 2200⟩] (by decide) (by decide) (by decide)⟩

theorem sumHeights_eq (images : List DynamicImage)
    (h : (images.map (fun im => im.height)).sum < u32Mod) :
    sumHeights images = (images.map (fun im => im.height)).sum := by
  suffices haux : ∀ (l : List DynamicImage) (a : Nat),
      a + (l.map (fun im => im.height)).sum < u32Mod →
      l.foldl (fun acc img => wrap (acc + img.height)) a
        = a + (l.map (fun im => im.height)).sum by
    simpa [sumHeights] using haux images 0 (by simpa using h)
  intro l
  induction l with
  | nil => intro a _; simp
  | cons img rest ih =>
    intro a ha
    simp only [List.map_cons, List.sum_cons] at ha ⊢
    rw [List.foldl_cons, wrap_eq_of_lt (by omega), ih (a + img.height)
      (by omega)]
    omega

theorem le_foldl_max (l : List Nat) : ∀ init : Nat,
    init ≤ l.foldl max init ∧ ∀ x ∈ l, x ≤ l.foldl max init := by
  induction l with
  | nil => intro init; simp
  | cons a rest ih =>
    intro init
    rw [List.foldl_cons]
    obtain ⟨h1, h2⟩ := ih (max init a)
    refine ⟨le_trans (le_max_left _ _) h1, ?_⟩
    intro x hx
    rcases List.mem_cons.1 hx with rfl | hx
    · exact le_trans (le_max_right _ _) h1
    · exact h2 x hx

theorem foldl_max_mem (l : List Nat) : ∀ init : Nat,
    l.foldl max init = init ∨ l.foldl max init ∈ l := by
  induction l with
  | nil => intro init; exact Or.inl rfl
  | cons a rest ih =>
    intro init
    rw [List.foldl_cons]
    rcases ih (max init a) with h | h
    · rcases Nat.le_total init a with hle | hle
      · right
        rw [h, max_eq_right hle]
        exact List.mem_cons_self _ _
      · left
        rw [h, max_eq_left hle]
    · right
      exact List.mem_cons_of_mem _ h

/-- `max().unwrap_or(0)` on a non-empty list is a member and an upper
bound. -/
theorem max_getD_spec (a : Nat) (l : List Nat) :
    ((a :: l).max?.getD 0) ∈ a :: l
    ∧ ∀ x ∈ a :: l, x ≤ ((a :: l).max?.getD 0) := by
  have hdef : ((a :: l).max?.getD 0) = l.foldl max a := rfl
  constructor
  · rw [hdef]
    rcases foldl_max_mem l a with h | h
    · rw [h]
      exact List.mem_cons_self _ _
    · exact List.mem_cons_of_mem _ h
  · intro x hx
    rw [hdef]
    rcases List.mem_cons.1 hx with rfl | hx
    · exact (le_foldl_max l x).1
    · exact (le_foldl_max l a).2 x hx

theorem placementsFrom_eq (maxW : Nat) :
    ∀ (l : List DynamicImage) (y : Nat),
      y + (l.map (fun im => im.height)).sum < u32Mod →
      placementsFrom maxW y l
        = (List.range l.length).map fun i =>
            ⟨maxW, (l.map (fun im => im.height)).getD i 0,
              y + ((l.map (fun im => im.height)).take i).sum⟩ := by
  intro l
  induction l with
  | nil => intro y _; rfl
  | cons img rest ih =>
    intro y hy
    simp only [List.map_cons, List.sum_cons] at hy
    rw [placementsFrom, wrap_eq_of_lt (by omega),
      ih (y + img.height) (by omega), List.length_cons,
      List.range_succ_eq_map, List.map_cons, List.map_map]
    congr 1
    apply List.map_congr_left
    intro i _
    simp only [Function.comp_apply, List.map_cons, List.getD_cons_succ,
      List.take_succ_cons, List.sum_cons, Placement.mk.injEq, true_and]
    omega

theorem manhwaEntries_eq (m H W : Nat) (hm : 0 < m)
    (hb : H + m ≤ u32Mod) :
    manhwaEntries m W H
      = (List.range ((H + m - 1) / m)).map fun i =>
          ⟨toString (i + 1) ++ ".webp", i * m, W,
            min ((i + 1) * m) H - i * m⟩ := by
  have h1 : H + m - 1 < u32Mod := by omega
  simp only [manhwaEntries]
  rw [wrap_eq_of_lt h1]
  apply List.map_congr_left
  intro i hi
  have hi2 : i < (H + m - 1) / m := List.mem_range.1 hi
  have h2 : (i + 1) * m ≤ H + m - 1 :=
    le_trans (Nat.mul_le_mul_right m hi2) (Nat.div_mul_le_self _ _)
  have h4 : i * m ≤ (i + 1) * m := Nat.mul_le_mul_right m (by omega)
  rw [wrap_eq_of_lt (by omega), wrap_eq_of_lt (by omega)]

/-- C5: for every non-empty image sequence, `combine_images` builds a
canvas whose width is the maximum image width (a member of the width
list and an upper bound for it) and whose height is the sum of all
heights; each image is placed resized to the canvas width, with its own
height, at the cumulative vertical offset of the images before it, in
original order; and the slicing loop partitions the canvas into
`(totalHeight + thresholdHeight - 1) / thresholdHeight =
ceil(totalHeight/thresholdHeight)` contiguous bands — band `i` spans
`[i*thresholdHeight, min((i+1)*thresholdHeight, totalHeight))`, so every
band is `thresholdHeight` tall except a shorter final remainder band —
emitted as entries named `1.webp, 2.webp, …` in canvas order.  The
arithmetic hypotheses rule out `u32` overflow. -/
theorem strip_transform_layout (images : List DynamicImage) (minH : Nat)
    (hne : images ≠ []) (hm : 0 < minH)
    (hb : (images.map (fun im => im.height)).sum + minH ≤ u32Mod) :
    (combine_images images).height = (images.map (fun im => im.height)).sum
    ∧ (combine_images images).width ∈ images.map (fun im => im.width)
    ∧ (∀ w ∈ images.map (fun im => im.width),
        w ≤ (combine_images images).width)
    ∧ (combine_images images).placements
        = (List.range images.length).map (fun i =>
            ⟨(combine_images images).width,
              (images.map (fun im => im.height)).getD i 0,
              ((images.map (fun im => im.height)).take i).sum⟩)
    ∧ manhwaEntries minH (combine_images images).width
          (combine_images images).height
        = (List.range
              (((images.map (fun im => im.height)).sum + minH - 1)
                / minH)).map
            (fun i => ⟨toString (i + 1) ++ ".webp", i * minH,
              (combine_images images).width,
              min ((i + 1) * minH)
                  ((images.map (fun im => im.height)).sum)
                - i * minH⟩)
    ∧ (manhwaEntries minH (combine_images images).width
          (combine_images images).height).length
        = ((images.map (fun im => im.height)).sum + minH - 1) / minH := by
  have hsum : (images.map (fun im => im.height)).sum < u32Mod := by omega
  have hH : (combine_images images).height
      = (images.map (fun im => im.height)).sum := by
    simpa [combine_images] using sumHeights_eq images hsum
  have hbands := manhwaEntries_eq minH
    ((images.map (fun im => im.height)).sum)
    (combine_images images).width hm hb
  refine ⟨hH, ?_, ?_, ?_, ?_, ?_⟩
  · obtain ⟨img0, rest, rfl⟩ : ∃ a l, images = a :: l := by
      cases images with
      | nil => exact absurd rfl hne
      | cons a l => exact ⟨a, l, rfl⟩
    have hw := max_getD_spec img0.width (rest.map (fun im => im.width))
    simpa [combine_images] using hw.1
  · intro w hwmem
    obtain ⟨img0, rest, rfl⟩ : ∃ a l, images = a :: l := by
      cases images with
      | nil => exact absurd rfl hne
      | cons a l => exact ⟨a, l, rfl⟩
    have hw := max_getD_spec img0.width (rest.map (fun im => im.width))
    have := hw.2 w (by simpa using hwmem)
    simpa [combine_images] using this
  · have hplace := placementsFrom_eq
      (((images.map (fun im => im.width)).max?).getD 0) images 0
      (by simpa using hsum)
    simp only [combine_images]
    rw [hplace]
    apply List.map_congr_left
    intro i _
    simp
  · rw [hH]
    exact hbands
  · rw [hH, hbands]
    simp

/-- Witness for C5, the spec's concrete scenario 2: two pages 700×2200
and 700×2300, threshold height 1024 — canvas 700×4500, five bands. -/
theorem strip_transform_layout_w :
    (([⟨700, 2200⟩, ⟨700, 2300⟩] : List DynamicImage) ≠ []
      ∧ 0 < 1024
      ∧ (([⟨700, 2200⟩, ⟨700, 2300⟩] : List DynamicImage).map
          (fun im => im.height)).sum + 1024 ≤ u32Mod)
    ∧ (combine_images [⟨700, 2200⟩, ⟨700, 2300⟩]).height
        = (([⟨700, 2200⟩, ⟨700, 2300⟩] : List DynamicImage).map
            (fun im => im.height)).sum
    ∧ (manhwaEntries 1024 (combine_images [⟨700, 2200⟩, ⟨700, 2300⟩]).width
          (combine_images [⟨700, 2200⟩, ⟨700, 2300⟩]).height).length
        = ((([⟨700, 2200⟩, ⟨700, 2300⟩] : List DynamicImage).map
            (fun im => im.height)).sum + 1024 - 1) / 1024 :=
  have h := strip_transform_layout [⟨700, 2200⟩, ⟨700, 2300⟩] 1024
    (by decide) (by decide) (by decide)
  ⟨⟨by decide, by decide, by decide⟩, h.1, h.2.2.2.2.2⟩

end MediaOrganizer
